import Mathlib

/-!
Verification development for the MarkMirror Markdown-to-HTML parser
(`src/utils/markdownParser.js`).

The parser is embedded shallowly: each JavaScript method becomes a Lean
function over `List Char` (one list of characters per line of input).
JavaScript regular-expression replacement loops are translated into
deterministic left-to-right scanners that implement exactly the leftmost
match semantics of the concrete regexes used by the source (all of which
are built from literal characters and greedy negated character classes,
so matching is deterministic and the scanners coincide with the regex
engine).  Scanners take an explicit fuel argument so that every
definition is structurally recursive and evaluates inside the kernel;
each scanning step consumes at least one input character, so fuel equal
to the input length is always sufficient, and the fuel-exhausted branch
returns the remaining input unchanged.
-/

set_option maxRecDepth 40000

namespace MarkMirror

abbrev Line := List Char

/-- JavaScript `\s` (ASCII part, which is all the source ever feeds it):
space, tab, newline, carriage return, vertical tab, form feed. -/
def isWs (c : Char) : Bool :=
  c = ' ' || c = '\t' || c = '\n' || c = '\r' || c = '\x0b' || c = '\x0c'

/-- JavaScript `String.prototype.trim` on a line. -/
def trim (s : Line) : Line :=
  ((s.dropWhile isWs).reverse.dropWhile isWs).reverse

/-- JavaScript `\w`: ASCII letters, digits and underscore. -/
def isWordChar (c : Char) : Bool :=
  c.isAlpha || c.isDigit || c = '_'

/-- The backtick character (code point 96), named so that the code never
needs a backtick character literal. -/
def btick : Char := Char.ofNat 96

/-- The apostrophe character (code point 39). -/
def apos : Char := Char.ofNat 39

/-- Model of `escapeHTML`: the source assigns the text to a DOM node
(`div.textContent = text`) and reads back `div.innerHTML`.  The HTML
text-node serialization escapes exactly `&`, `<`, `>` (and the
non-breaking space); quotes are NOT escaped in text nodes. -/
def escapeHTMLChar (c : Char) : List Char :=
  if c = '&' then "&amp;".data
  else if c = '<' then "&lt;".data
  else if c = '>' then "&gt;".data
  else if c = '\u00A0' then "&nbsp;".data
  else [c]

def escapeHTML (s : List Char) : List Char :=
  (s.map escapeHTMLChar).flatten

/-- Split a character list at every occurrence of `c`
(JavaScript `String.prototype.split` with a single-character separator). -/
def splitChar (c : Char) : List Char → List (List Char)
  | [] => [[]]
  | d :: rest =>
    match splitChar c rest with
    | [] => if d = c then [[], []] else [[d]]
    | x :: xs => if d = c then [] :: x :: xs else (d :: x) :: xs

/-- Model of `markdown.replace(/\r\n/g, '\n').replace(/\r/g, '\n')`. -/
def normalizeNewlines : List Char → List Char
  | [] => []
  | '\r' :: '\n' :: rest => '\n' :: normalizeNewlines rest
  | '\r' :: rest => '\n' :: normalizeNewlines rest
  | c :: rest => c :: normalizeNewlines rest

/-! ### Inline engine: `processInlineCode`, `processImages`, `processLinks`,
`processBoldItalic`, `processStrikethrough`, `processInlineHTML` -/

/-- Scanner for ``text.replace(/`([^`]+)`/g, (m, code) =>
`<code>${escapeHTML(code)}</code>`)``. -/
def inlineCodeGo : Nat → List Char → List Char
  | 0, s => s
  | _ + 1, [] => []
  | fuel + 1, c :: rest =>
    if c = btick then
      let content := rest.takeWhile (fun d => ¬ d = btick)
      let after := rest.drop content.length
      if content = [] then c :: inlineCodeGo fuel rest
      else
        match after with
        | _ :: after' =>
          "<code>".data ++ escapeHTML content ++ "</code>".data ++ inlineCodeGo fuel after'
        | [] => c :: inlineCodeGo fuel rest
    else c :: inlineCodeGo fuel rest

def processInlineCode (s : List Char) : List Char :=
  inlineCodeGo s.length s

/-- Scanner for `text.replace(/!\[([^\]]*)\]\(([^)]+)\)/g, ...)`
emitting `<img src="escapedUrl" alt="escapedAlt">`. -/
def imagesGo : Nat → List Char → List Char
  | 0, s => s
  | _ + 1, [] => []
  | fuel + 1, c :: rest =>
    if c = '!' then
      match rest with
      | '[' :: rest1 =>
        let alt := rest1.takeWhile (fun d => ¬ d = ']')
        (match rest1.drop alt.length with
         | ']' :: '(' :: rest2 =>
           let url := rest2.takeWhile (fun d => ¬ d = ')')
           if url = [] then c :: imagesGo fuel rest
           else
             match rest2.drop url.length with
             | _ :: after =>
               "<img src=\"".data ++ escapeHTML url ++ "\" alt=\"".data ++
                 escapeHTML alt ++ "\">".data ++ imagesGo fuel after
             | [] => c :: imagesGo fuel rest
         | _ => c :: imagesGo fuel rest)
      | _ => c :: imagesGo fuel rest
    else c :: imagesGo fuel rest

def processImages (s : List Char) : List Char :=
  imagesGo s.length s

/-- Scanner for `text.replace(/\[([^\]]+)\]\(([^)]+)\)/g, ...)`
emitting `<a href="escapedUrl">escapedText</a>`. -/
def linksGo : Nat → List Char → List Char
  | 0, s => s
  | _ + 1, [] => []
  | fuel + 1, c :: rest =>
    if c = '[' then
      let txt := rest.takeWhile (fun d => ¬ d = ']')
      if txt = [] then c :: linksGo fuel rest
      else
        match rest.drop txt.length with
        | ']' :: '(' :: rest2 =>
          let url := rest2.takeWhile (fun d => ¬ d = ')')
          if url = [] then c :: linksGo fuel rest
          else
            match rest2.drop url.length with
            | _ :: after =>
              "<a href=\"".data ++ escapeHTML url ++ "\">".data ++
                escapeHTML txt ++ "</a>".data ++ linksGo fuel after
            | [] => c :: linksGo fuel rest
        | _ => c :: linksGo fuel rest
    else c :: linksGo fuel rest

def processLinks (s : List Char) : List Char :=
  linksGo s.length s

/-- Generic scanner for the four emphasis replacements and strikethrough.
`double = true` models `dd([^d]+)dd` (e.g. `\*\*([^*]+)\*\*`), `double =
false` models `d([^d]+)d`.  The replacement template is `openT $1 closeT`
with the capture inserted verbatim (the source uses `'$1'`, no escaping).
On a failed match attempt the JavaScript engine advances one character,
which is what the `miss` branches do. -/
def emphGo (d : Char) (openT closeT : List Char) (double : Bool) :
    Nat → List Char → List Char
  | 0, s => s
  | _ + 1, [] => []
  | fuel + 1, c :: rest =>
    if c = d then
      if double then
        match rest with
        | c2 :: rest2 =>
          if c2 = d then
            let content := rest2.takeWhile (fun e => ¬ e = d)
            if content = [] then c :: emphGo d openT closeT double fuel rest
            else
              match rest2.drop content.length with
              | e1 :: e2 :: after =>
                if e1 = d ∧ e2 = d then
                  openT ++ content ++ closeT ++ emphGo d openT closeT double fuel after
                else c :: emphGo d openT closeT double fuel rest
              | _ => c :: emphGo d openT closeT double fuel rest
          else c :: emphGo d openT closeT double fuel rest
        | [] => c :: emphGo d openT closeT double fuel rest
      else
        let content := rest.takeWhile (fun e => ¬ e = d)
        if content = [] then c :: emphGo d openT closeT double fuel rest
        else
          match rest.drop content.length with
          | _ :: after =>
            openT ++ content ++ closeT ++ emphGo d openT closeT double fuel after
          | [] => c :: emphGo d openT closeT double fuel rest
    else c :: emphGo d openT closeT double fuel rest

/-- Model of `processBoldItalic`: four sequential global replacements, in source
order `**`, `__`, `*`, `_`. -/
def processBoldItalic (s : List Char) : List Char :=
  let s1 := emphGo '*' "<strong>".data "</strong>".data true s.length s
  let s2 := emphGo '_' "<strong>".data "</strong>".data true s1.length s1
  let s3 := emphGo '*' "<em>".data "</em>".data false s2.length s2
  emphGo '_' "<em>".data "</em>".data false s3.length s3

/-- Model of `processStrikethrough`: `text.replace(/~~([^~]+)~~/g, '<del>$1</del>')`. -/
def processStrikethrough (s : List Char) : List Char :=
  emphGo '~' "<del>".data "</del>".data true s.length s

/-- ASCII lower-casing, for the case-insensitive inline-HTML regexes. -/
def lcChar (c : Char) : Char :=
  if 'A' ≤ c ∧ c ≤ 'Z' then Char.ofNat (c.toNat + 32) else c

/-- Case-insensitive prefix test (`pat` given in lowercase). -/
def ciIsPrefix : List Char → List Char → Bool
  | [], _ => true
  | _ :: _, [] => false
  | p :: ps, c :: cs => lcChar c = p && ciIsPrefix ps cs

/-- Scanner for one round of `processInlineHTML`:
`new RegExp(`<tag([^>]*)>([^<]*)</tag>`, 'gi')` replaced by
`<tag attrs>content</tag>` with the array's lowercase tag name. -/
def inlineHTMLGo (tag : List Char) : Nat → List Char → List Char
  | 0, s => s
  | _ + 1, [] => []
  | fuel + 1, c :: rest =>
    if c = '<' then
      if ciIsPrefix tag rest then
        let rest1 := rest.drop tag.length
        let attrs := rest1.takeWhile (fun d => ¬ d = '>')
        match rest1.drop attrs.length with
        | '>' :: rest2 =>
          let content := rest2.takeWhile (fun d => ¬ d = '<')
          (match rest2.drop content.length with
           | '<' :: '/' :: rest3 =>
             if ciIsPrefix tag rest3 then
               match rest3.drop tag.length with
               | '>' :: after =>
                 '<' :: (tag ++ attrs) ++ '>' :: (content ++ "</".data ++ tag ++ ">".data)
                   ++ inlineHTMLGo tag fuel after
               | _ => c :: inlineHTMLGo tag fuel rest
             else c :: inlineHTMLGo tag fuel rest
           | _ => c :: inlineHTMLGo tag fuel rest)
        | _ => c :: inlineHTMLGo tag fuel rest
      else c :: inlineHTMLGo tag fuel rest
    else c :: inlineHTMLGo tag fuel rest

/-- Model of `processInlineHTML`: `['kbd', 'mark', 'details', 'summary'].forEach`. -/
def processInlineHTML (s : List Char) : List Char :=
  let s1 := inlineHTMLGo "kbd".data s.length s
  let s2 := inlineHTMLGo "mark".data s1.length s1
  let s3 := inlineHTMLGo "details".data s2.length s2
  inlineHTMLGo "summary".data s3.length s3

/-- Model of `processInlineElements`: fixed pipeline, code spans first, images
before links, then emphasis, strikethrough and the whitelisted raw-HTML
passthrough.  `if (!text) return ''`. -/
def processInlineElements (s : List Char) : List Char :=
  if s = [] then []
  else
    processInlineHTML (processStrikethrough (processBoldItalic
      (processLinks (processImages (processInlineCode s)))))

/-! ### `escapeHTMLInText`: protection, escaping, restoration -/

/-- The generated placeholder token `__PROTECTED_${index}__`. -/
def placeholder (i : Nat) : List Char :=
  "__PROTECTED_".data ++ Nat.toDigits 10 i ++ "__".data

/-- Protection pass for inline code: same matcher as `inlineCodeGo`, but
each match is pushed onto `protectedElements` and replaced by its
placeholder token. -/
def protectCodeGo : Nat → List Char → List (List Char) → List Char × List (List Char)
  | 0, s, acc => (s, acc)
  | _ + 1, [], acc => ([], acc)
  | fuel + 1, c :: rest, acc =>
    if c = btick then
      let content := rest.takeWhile (fun d => ¬ d = btick)
      let after := rest.drop content.length
      if content = [] then
        let (t, a) := protectCodeGo fuel rest acc
        (c :: t, a)
      else
        match after with
        | _ :: after' =>
          let matched := btick :: content ++ [btick]
          let (t, a) := protectCodeGo fuel after' (acc ++ [matched])
          (placeholder acc.length ++ t, a)
        | [] =>
          let (t, a) := protectCodeGo fuel rest acc
          (c :: t, a)
    else
      let (t, a) := protectCodeGo fuel rest acc
      (c :: t, a)

/-- Protection pass for links (matcher of `linksGo`). -/
def protectLinksGo : Nat → List Char → List (List Char) → List Char × List (List Char)
  | 0, s, acc => (s, acc)
  | _ + 1, [], acc => ([], acc)
  | fuel + 1, c :: rest, acc =>
    if c = '[' then
      let txt := rest.takeWhile (fun d => ¬ d = ']')
      if txt = [] then
        let (t, a) := protectLinksGo fuel rest acc
        (c :: t, a)
      else
        match rest.drop txt.length with
        | ']' :: '(' :: rest2 =>
          let url := rest2.takeWhile (fun d => ¬ d = ')')
          if url = [] then
            let (t, a) := protectLinksGo fuel rest acc
            (c :: t, a)
          else
            (match rest2.drop url.length with
             | _ :: after =>
               let matched := '[' :: txt ++ ']' :: '(' :: url ++ [')']
               let (t, a) := protectLinksGo fuel after (acc ++ [matched])
               (placeholder acc.length ++ t, a)
             | [] =>
               let (t, a) := protectLinksGo fuel rest acc
               (c :: t, a))
        | _ =>
          let (t, a) := protectLinksGo fuel rest acc
          (c :: t, a)
    else
      let (t, a) := protectLinksGo fuel rest acc
      (c :: t, a)

/-- Protection pass for images (matcher of `imagesGo`). -/
def protectImagesGo : Nat → List Char → List (List Char) → List Char × List (List Char)
  | 0, s, acc => (s, acc)
  | _ + 1, [], acc => ([], acc)
  | fuel + 1, c :: rest, acc =>
    if c = '!' then
      match rest with
      | '[' :: rest1 =>
        let alt := rest1.takeWhile (fun d => ¬ d = ']')
        (match rest1.drop alt.length with
         | ']' :: '(' :: rest2 =>
           let url := rest2.takeWhile (fun d => ¬ d = ')')
           if url = [] then
             let (t, a) := protectImagesGo fuel rest acc
             (c :: t, a)
           else
             (match rest2.drop url.length with
              | _ :: after =>
                let matched := '!' :: '[' :: alt ++ ']' :: '(' :: url ++ [')']
                let (t, a) := protectImagesGo fuel after (acc ++ [matched])
                (placeholder acc.length ++ t, a)
              | [] =>
                let (t, a) := protectImagesGo fuel rest acc
                (c :: t, a))
         | _ =>
           let (t, a) := protectImagesGo fuel rest acc
           (c :: t, a))
      | _ =>
        let (t, a) := protectImagesGo fuel rest acc
        (c :: t, a)
    else
      let (t, a) := protectImagesGo fuel rest acc
      (c :: t, a)

/-- The three protection passes of `escapeHTMLInText`, in source order:
inline code, then links, then images, sharing one `protectedElements`
array. -/
def protectAll (s : List Char) : List Char × List (List Char) :=
  let (t1, e1) := protectCodeGo s.length s []
  let (t2, e2) := protectLinksGo t1.length t1 e1
  protectImagesGo t2.length t2 e2

/-- Scanner for `protectedText.replace(/<[^>]+>/g, m => this.escapeHTML(m))`. -/
def escTagsGo : Nat → List Char → List Char
  | 0, s => s
  | _ + 1, [] => []
  | fuel + 1, c :: rest =>
    if c = '<' then
      let content := rest.takeWhile (fun d => ¬ d = '>')
      if content = [] then c :: escTagsGo fuel rest
      else
        match rest.drop content.length with
        | _ :: after =>
          escapeHTML ('<' :: content ++ ['>']) ++ escTagsGo fuel after
        | [] => c :: escTagsGo fuel rest
    else c :: escTagsGo fuel rest

/-- First-occurrence split: `s = fst ++ pat ++ snd` at the leftmost
occurrence of `pat`, if any. -/
def splitFirst (pat : List Char) : List Char → Option (List Char × List Char)
  | [] => if pat = [] then some ([], []) else none
  | c :: rest =>
    if pat.isPrefixOf (c :: rest) then some ([], (c :: rest).drop pat.length)
    else
      match splitFirst pat rest with
      | some (a, b) => some (c :: a, b)
      | none => none

/-- JavaScript `GetSubstitution` for a string (non-regex) pattern:
`$$` → `$`, `$&` → the matched pattern, `` $` `` → the text before the
match, `$'` → the text after the match; any other `$`-sequence is kept
literally (there are no capture groups for a string pattern). -/
def dollarSubst (pat before after : List Char) : List Char → List Char
  | [] => []
  | '$' :: c :: rest =>
    if c = '$' then '$' :: dollarSubst pat before after rest
    else if c = '&' then pat ++ dollarSubst pat before after rest
    else if c = btick then before ++ dollarSubst pat before after rest
    else if c = apos then after ++ dollarSubst pat before after rest
    else '$' :: dollarSubst pat before after (c :: rest)
  | c :: rest => c :: dollarSubst pat before after rest

/-- JavaScript `String.prototype.replace` with string pattern and string
replacement: replaces the first occurrence only, applying
`$`-substitution to the replacement; no occurrence means no change. -/
def jsReplaceFirst (s pat repl : List Char) : List Char :=
  match splitFirst pat s with
  | none => s
  | some (a, b) => a ++ dollarSubst pat a b repl ++ b

/-- Model of `protectedElements.forEach((element, index) => { protectedText =
protectedText.replace(`__PROTECTED_${index}__`, element); })`. -/
def restoreProtected (s : List Char) (elems : List (List Char)) : List Char :=
  (elems.enum).foldl (fun t ie => jsReplaceFirst t (placeholder ie.1) ie.2) s

/-- Model of `escapeHTMLInText`: protect code/link/image spans, escape `<...>`
sequences in what remains, then restore the protected spans. -/
def escapeHTMLInText (s : List Char) : List Char :=
  let (t, elems) := protectAll s
  restoreProtected (escTagsGo t.length t) elems

/-! ### Block processors.

Each processor is a function of the sub-list of lines starting at the
dispatcher's current index (`lines.drop i` for the JavaScript call
`processX(lines, i)`) and returns the emitted HTML together with the
number of lines consumed, so `nextIndex = i + consumed`. -/

/-- A block processor result: the HTML string and the number of input
lines consumed (`nextIndex - startIndex`). -/
abbrev BlockResult := List Char × Nat

/-- Helper for the regex tail `\s+(.+)$`: at least one whitespace
character, then a non-empty remainder.  With a greedy-but-backtracking
`\s+`, if nothing follows the whitespace run then `.+` captures the last
whitespace character (possible only when the run has length ≥ 2). -/
def wsPlusRest (s : List Char) : Option (List Char) :=
  let ws := s.takeWhile isWs
  if ws = [] then none
  else
    let rest := s.drop ws.length
    if rest = [] then
      if 2 ≤ ws.length then some (ws.drop (ws.length - 1)) else none
    else some rest

/-- Model of `line.match(/^(#{1,6})\s+(.+)$/)`: returns the level and the header
text.  Seven or more leading `#` cannot match (every shorter prefix of
the run is followed by another `#`, not whitespace). -/
def headerMatch (l : Line) : Option (Nat × List Char) :=
  let k := (l.takeWhile (fun c => c = '#')).length
  if k = 0 ∨ 6 < k then none
  else
    match wsPlusRest (l.drop k) with
    | some txt => some (k, txt)
    | none => none

/-- Model of `line.match(/^```/)`. -/
def fenceOpen (l : Line) : Bool :=
  "```".data.isPrefixOf l

/-- Model of `lines[i].match(/^```\s*$/)`: exactly three backticks then optional
trailing whitespace. -/
def closeFence (l : Line) : Bool :=
  "```".data.isPrefixOf l && (l.drop 3).all isWs

/-- Model of `processFencedCodeBlock`: language tag from `/^```(\w+)?/`, then all
following lines until a closing fence (or end of input) are collected
verbatim and HTML-escaped.  `nextIndex` is one past the closing fence,
i.e. `lines.length + 1` when the fence is unterminated. -/
def processFencedCodeBlock (suffix : List Line) : BlockResult :=
  match suffix with
  | [] => ([], 1)
  | l :: rest =>
    let language := (l.drop 3).takeWhile isWordChar
    let codeLines := rest.takeWhile (fun x => ¬ closeFence x)
    let code := escapeHTML (List.intercalate ['\n'] codeLines)
    let langClass :=
      if language = [] then []
      else " class=\"language-".data ++ language ++ "\"".data
    ("<pre><code".data ++ langClass ++ ">".data ++ code ++ "</code></pre>".data,
      codeLines.length + 2)

/-- Model of `isTableRow`: `line.includes('|') && line.trim().length > 0`. -/
def isTableRow (l : Line) : Bool :=
  l.contains '|' && ¬ trim l = []

/-- Model of `isTableSeparator`: `/^\s*\|?[\s\-\|:]+\|?\s*$/.test(line)`.  Since
the bracket class already contains `\s` and `|`, the regex accepts
exactly the non-empty lines all of whose characters are whitespace, `-`,
`|` or `:`. -/
def isTableSeparator (l : Line) : Bool :=
  ¬ l = [] && l.all (fun c => isWs c || c = '-' || c = '|' || c = ':')

/-- Model of `parseTableRow`: split on `|`, trim each cell, drop empty cells. -/
def parseTableRow (l : Line) : List (List Char) :=
  ((splitChar '|' l).map trim).filter (fun c => ¬ c = [])

/-- Model of `processTable`: collect the contiguous run of table rows; fewer than
two rows yields `null`.  Row 0 is the header, row 1 the discarded
separator, the rest are data rows. -/
def processTable (suffix : List Line) : Option BlockResult :=
  match suffix.takeWhile isTableRow with
  | r0 :: _ :: rs =>
    let headerRow := parseTableRow r0
    let dataRows := rs.map parseTableRow
    let html :=
      "<table>\n<thead>\n<tr>\n".data ++
      (headerRow.map (fun cell =>
        "<th>".data ++ processInlineElements cell ++ "</th>\n".data)).flatten ++
      "</tr>\n</thead>\n<tbody>\n".data ++
      (dataRows.map (fun row =>
        "<tr>\n".data ++
        (row.map (fun cell =>
          "<td>".data ++ processInlineElements cell ++ "</td>\n".data)).flatten ++
        "</tr>\n".data)).flatten ++
      "</tbody>\n</table>".data
    some (html, (suffix.takeWhile isTableRow).length)
  | _ => none

/-- The kinds of list item recognized by `processList`. -/
inductive ItemKind | task | unordered | ordered
deriving DecidableEq

/-- One collected list item (`{type, indent, content, checked}`). -/
structure ListItem where
  kind : ItemKind
  indent : Nat
  content : List Char
  checked : Bool
deriving DecidableEq

/-- Model of `line.match(/^(\s*)([-*+])\s+\[([ x])\]\s+(.+)$/)`. -/
def taskMatch (l : Line) : Option (Nat × Bool × List Char) :=
  let ws0 := l.takeWhile isWs
  match l.drop ws0.length with
  | m :: rest =>
    if m = '-' ∨ m = '*' ∨ m = '+' then
      let ws1 := rest.takeWhile isWs
      if ws1 = [] then none
      else
        match rest.drop ws1.length with
        | '[' :: b :: ']' :: rest2 =>
          if b = ' ' ∨ b = 'x' then
            match wsPlusRest rest2 with
            | some content => some (ws0.length, b = 'x', content)
            | none => none
          else none
        | _ => none
    else none
  | [] => none

/-- Model of `line.match(/^(\s*)([-*+])\s+(.+)$/)`. -/
def unorderedMatch (l : Line) : Option (Nat × List Char) :=
  let ws0 := l.takeWhile isWs
  match l.drop ws0.length with
  | m :: rest =>
    if m = '-' ∨ m = '*' ∨ m = '+' then
      match wsPlusRest rest with
      | some content => some (ws0.length, content)
      | none => none
    else none
  | [] => none

/-- Model of `line.match(/^(\s*)(\d+)\.\s+(.+)$/)`. -/
def orderedMatch (l : Line) : Option (Nat × List Char) :=
  let ws0 := l.takeWhile isWs
  let digits := (l.drop ws0.length).takeWhile Char.isDigit
  if digits = [] then none
  else
    match (l.drop ws0.length).drop digits.length with
    | '.' :: rest2 =>
      match wsPlusRest rest2 with
      | some content => some (ws0.length, content)
      | none => none
    | _ => none

/-- One iteration of the `processList` collection loop: task items are
checked first, then unordered, then ordered; item content runs through
the inline engine at collection time. -/
def itemOf (l : Line) : Option ListItem :=
  match taskMatch l with
  | some (indent, checked, content) =>
    some ⟨ItemKind.task, indent, processInlineElements content, checked⟩
  | none =>
    match unorderedMatch l with
    | some (indent, content) =>
      some ⟨ItemKind.unordered, indent, processInlineElements content, false⟩
    | none =>
      match orderedMatch l with
      | some (indent, content) =>
        some ⟨ItemKind.ordered, indent, processInlineElements content, false⟩
      | none => none

/-- The contiguous run of list-item lines starting the list. -/
def collectItems : List Line → List ListItem
  | [] => []
  | l :: rest =>
    match itemOf l with
    | some it => it :: collectItems rest
    | none => []

/-- The `listType` accumulator: `if (!listType) listType = ...`, with
`'ul'` for task and unordered items and `'ol'` for ordered items. -/
def tagOfItem (it : ListItem) : List Char :=
  match it.kind with
  | ItemKind.ordered => "ol".data
  | _ => "ul".data

def listTypeOf (items : List ListItem) : Option (List Char) :=
  items.foldl (fun acc it => if acc = none then some (tagOfItem it) else acc) none

/-- Model of `<li>` rendering, including the task checkbox variant. -/
def renderItem (it : ListItem) : List Char :=
  match it.kind with
  | ItemKind.task =>
    "<li class=\"task-list-item\"><input type=\"checkbox\"".data ++
    (if it.checked then " checked".data else []) ++
    " disabled> ".data ++ it.content ++ "</li>\n".data
  | _ => "<li>".data ++ it.content ++ "</li>\n".data

/-- Model of `processList`.  When the gate matched but no item regex matches the
first line (e.g. `"- "`), zero items are collected, `listType` stays
`null` (interpolated as the string `"null"`), and **zero lines are
consumed** (`nextIndex === startIndex`). -/
def processList (suffix : List Line) : BlockResult :=
  let items := collectItems suffix
  let t := match listTypeOf items with
    | some t => t
    | none => "null".data
  ('<' :: t ++ ">\n".data ++ (items.map renderItem).flatten ++ "</".data ++ t ++ ">".data,
    items.length)

/-- The list gate: `line.match(/^\s*[-*+]\s/) || line.match(/^\s*\d+\.\s/)`. -/
def listGate (l : Line) : Bool :=
  let r := l.drop (l.takeWhile isWs).length
  (match r with
   | m :: w :: _ => (m = '-' || m = '*' || m = '+') && isWs w
   | _ => false) ||
  (let digits := r.takeWhile Char.isDigit
   ¬ digits = [] &&
   (match r.drop digits.length with
    | '.' :: w :: _ => isWs w
    | _ => false))

/-- The blockquote gate: `lines[i].match(/^\s*>\s/)` — note the
whitespace after `>` is required. -/
def bqGate (l : Line) : Bool :=
  match l.drop (l.takeWhile isWs).length with
  | '>' :: w :: _ => isWs w
  | _ => false

/-- Model of `lines[i].replace(/^\s*>\s?/, '')`: strip leading whitespace, the
`>`, and at most one following whitespace character (no change if the
pattern does not match). -/
def stripBqMarker (l : Line) : Line :=
  let ws := l.takeWhile isWs
  match l.drop ws.length with
  | '>' :: w :: rest2 => if isWs w then rest2 else w :: rest2
  | '>' :: [] => []
  | _ => l

/-- Model of `processBlockquote`: strip the marker from each gated line, join with
newlines, one inline-engine run over the joined text. -/
def processBlockquote (suffix : List Line) : BlockResult :=
  let quoteLines := (suffix.takeWhile bqGate).map stripBqMarker
  let content := processInlineElements (List.intercalate ['\n'] quoteLines)
  ("<blockquote>".data ++ content ++ "</blockquote>".data,
    (suffix.takeWhile bqGate).length)

/-- Model of `line.match(/^\s*[-*_]{3,}\s*$/)`: optional whitespace, then three or
more characters from `{-, *, _}` (any mixture), then optional whitespace
to the end. -/
def hrMatch (l : Line) : Bool :=
  let r := l.drop (l.takeWhile isWs).length
  let run := r.takeWhile (fun c => c = '-' || c = '*' || c = '_')
  3 ≤ run.length && (r.drop run.length).all isWs

/-- Model of `processBlockElement`: the dispatcher's fixed priority order.  Note
that when the table lookahead gate passes, the result of `processTable`
is returned directly — even when it is `null` — so the list, blockquote
and horizontal-rule matchers are skipped for such a line. -/
def processBlockElement (suffix : List Line) : Option BlockResult :=
  match suffix with
  | [] => none
  | line :: rest =>
    match headerMatch line with
    | some (k, txt) =>
      some ("<h".data ++ Nat.toDigits 10 k ++ ">".data ++ processInlineElements txt ++
        "</h".data ++ Nat.toDigits 10 k ++ ">".data, 1)
    | none =>
      if fenceOpen line then some (processFencedCodeBlock suffix)
      else if isTableRow line &&
              (match rest with
               | next :: _ => isTableSeparator next
               | [] => false) then
        processTable suffix
      else if listGate line then some (processList suffix)
      else if bqGate line then some (processBlockquote suffix)
      else if hrMatch line then some ("<hr>".data, 1)
      else none

/-- The paragraph collection loop: stop at an empty line or at a line
where some block element matches (checked against the full remaining
line list, so the table lookahead still sees the following line). -/
def collectParaLines : List Line → List Line
  | [] => []
  | l :: rest =>
    if trim l = [] ∨ (processBlockElement (l :: rest)).isSome then []
    else l :: collectParaLines rest

/-- Model of `processParagraph`: join the collected lines with single spaces,
escape raw HTML (`escapeHTMLInText`), then run the inline engine.  An
empty collection yields the empty string and consumes one line. -/
def processParagraph (suffix : List Line) : BlockResult :=
  let ls := collectParaLines suffix
  if ls = [] then ([], 1)
  else
    ("<p>".data ++ processInlineElements (escapeHTMLInText (List.intercalate [' '] ls)) ++
      "</p>".data, ls.length)

/-- The `processLines` dispatcher loop.  The state is the remaining line
suffix plus the accumulated result array; leading blank lines are only
skipped while the result array is still empty.  `fuel` bounds the number
of iterations: `none` means the loop did not finish within `fuel` steps
(the JavaScript loop has no such bound — see the termination claim). -/
def processLinesGo : Nat → List Line → List (List Char) → Option (List (List Char))
  | 0, _, _ => none
  | _ + 1, [], acc => some acc
  | fuel + 1, l :: rest, acc =>
    if trim l = [] ∧ acc = [] then processLinesGo fuel rest acc
    else
      match processBlockElement (l :: rest) with
      | some (html, n) => processLinesGo fuel ((l :: rest).drop n) (acc ++ [html])
      | none =>
        let p := processParagraph (l :: rest)
        processLinesGo fuel ((l :: rest).drop p.2) (acc ++ [p.1])

/-- Model of `processLines` with fuel `lines.length + 1`, which suffices whenever
every dispatcher step consumes at least one line. -/
def processLines (lines : List Line) : Option (List Char) :=
  (processLinesGo (lines.length + 1) lines []).map (List.intercalate ['\n'])

/-- Fallback sanitizer:
`html.replace(/<script\b[^<]*(?:(?!<\/script>)<[^<]*)*<\/script>/gi, '')`.
`scriptMatchTail` consumes `[^<]*(?:(?!<\/script>)<[^<]*)*<\/script>`
after an already-recognized `<script\b`, returning the remainder after
the closing tag when the whole pattern matches. -/
def scriptMatchTail : Nat → List Char → Option (List Char)
  | 0, _ => none
  | fuel + 1, s =>
    let chunk := s.takeWhile (fun d => ¬ d = '<')
    let rest := s.drop chunk.length
    if ciIsPrefix "</script>".data rest then some (rest.drop 9)
    else
      match rest with
      | _ :: rest1 => scriptMatchTail fuel rest1
      | [] => none

/-- Word-boundary test for the `\b` after `<script`: the next character
(if any) is not a word character. -/
def boundaryAt (s : List Char) : Bool :=
  match s with
  | [] => true
  | d :: _ => ¬ isWordChar d

def sanitizeGo : Nat → List Char → List Char
  | 0, s => s
  | _ + 1, [] => []
  | fuel + 1, c :: rest =>
    if c = '<' && ciIsPrefix "script".data rest && boundaryAt (rest.drop 6) then
      match scriptMatchTail rest.length (rest.drop 6) with
      | some after => sanitizeGo fuel after
      | none => c :: sanitizeGo fuel rest
    else c :: sanitizeGo fuel rest

/-- Model of `sanitizeHTML` when the external `DOMPurify` collaborator is absent
(the weak fallback of the source). -/
def sanitizeHTMLFallback (s : List Char) : List Char :=
  sanitizeGo s.length s

/-- Model of `parse`: empty input short-circuits to the empty string; otherwise
normalize line endings, split into lines, run the dispatcher loop, join
with newlines and sanitize.  `none` models non-termination of the
dispatcher loop. -/
def parse (md : String) : Option String :=
  if md.data = [] then some ""
  else
    let lines := splitChar '\n' (normalizeNewlines md.data)
    (processLinesGo (lines.length + 1) lines []).map
      (fun r => String.mk (sanitizeHTMLFallback (List.intercalate ['\n'] r)))

/-! ### Helper lemmas

Each scanner copies its input unchanged when the trigger character of
its pattern does not occur in the input. -/

theorem intercalate_singleton (sep l : List Char) :
    List.intercalate sep [l] = l := by
  simp [List.intercalate]

theorem inlineCodeGo_id {s : List Char} (h : btick ∉ s) :
    ∀ fuel, inlineCodeGo fuel s = s := by
  induction s with
  | nil => intro fuel; cases fuel <;> rfl
  | cons c rest ih =>
    intro fuel
    have hc : ¬ c = btick := by rintro rfl; exact h (List.mem_cons_self _ _)
    have hr : btick ∉ rest := fun hm => h (List.mem_cons_of_mem _ hm)
    cases fuel with
    | zero => rfl
    | succ fuel => simp only [inlineCodeGo, if_neg hc, ih hr fuel]

theorem imagesGo_id {s : List Char} (h : '!' ∉ s) :
    ∀ fuel, imagesGo fuel s = s := by
  induction s with
  | nil => intro fuel; cases fuel <;> rfl
  | cons c rest ih =>
    intro fuel
    have hc : ¬ c = '!' := by rintro rfl; exact h (List.mem_cons_self _ _)
    have hr : '!' ∉ rest := fun hm => h (List.mem_cons_of_mem _ hm)
    cases fuel with
    | zero => rfl
    | succ fuel => simp only [imagesGo, if_neg hc, ih hr fuel]

theorem linksGo_id {s : List Char} (h : '[' ∉ s) :
    ∀ fuel, linksGo fuel s = s := by
  induction s with
  | nil => intro fuel; cases fuel <;> rfl
  | cons c rest ih =>
    intro fuel
    have hc : ¬ c = '[' := by rintro rfl; exact h (List.mem_cons_self _ _)
    have hr : '[' ∉ rest := fun hm => h (List.mem_cons_of_mem _ hm)
    cases fuel with
    | zero => rfl
    | succ fuel => simp only [linksGo, if_neg hc, ih hr fuel]

theorem emphGo_id {d : Char} {openT closeT : List Char} {double : Bool}
    {s : List Char} (h : d ∉ s) :
    ∀ fuel, emphGo d openT closeT double fuel s = s := by
  induction s with
  | nil => intro fuel; cases fuel <;> rfl
  | cons c rest ih =>
    intro fuel
    have hc : ¬ c = d := by rintro rfl; exact h (List.mem_cons_self _ _)
    have hr : d ∉ rest := fun hm => h (List.mem_cons_of_mem _ hm)
    cases fuel with
    | zero => rfl
    | succ fuel => simp only [emphGo, if_neg hc, ih hr fuel]

theorem inlineHTMLGo_id {tag : List Char} {s : List Char} (h : '<' ∉ s) :
    ∀ fuel, inlineHTMLGo tag fuel s = s := by
  induction s with
  | nil => intro fuel; cases fuel <;> rfl
  | cons c rest ih =>
    intro fuel
    have hc : ¬ c = '<' := by rintro rfl; exact h (List.mem_cons_self _ _)
    have hr : '<' ∉ rest := fun hm => h (List.mem_cons_of_mem _ hm)
    cases fuel with
    | zero => rfl
    | succ fuel => simp only [inlineHTMLGo, if_neg hc, ih hr fuel]

theorem escTagsGo_id {s : List Char} (h : '<' ∉ s) :
    ∀ fuel, escTagsGo fuel s = s := by
  induction s with
  | nil => intro fuel; cases fuel <;> rfl
  | cons c rest ih =>
    intro fuel
    have hc : ¬ c = '<' := by rintro rfl; exact h (List.mem_cons_self _ _)
    have hr : '<' ∉ rest := fun hm => h (List.mem_cons_of_mem _ hm)
    cases fuel with
    | zero => rfl
    | succ fuel => simp only [escTagsGo, if_neg hc, ih hr fuel]

theorem protectCodeGo_id {s : List Char} (h : btick ∉ s) :
    ∀ fuel acc, protectCodeGo fuel s acc = (s, acc) := by
  induction s with
  | nil => intro fuel acc; cases fuel <;> rfl
  | cons c rest ih =>
    intro fuel acc
    have hc : ¬ c = btick := by rintro rfl; exact h (List.mem_cons_self _ _)
    have hr : btick ∉ rest := fun hm => h (List.mem_cons_of_mem _ hm)
    cases fuel with
    | zero => rfl
    | succ fuel => simp only [protectCodeGo, if_neg hc, ih hr fuel acc]

theorem protectLinksGo_id {s : List Char} (h : '[' ∉ s) :
    ∀ fuel acc, protectLinksGo fuel s acc = (s, acc) := by
  induction s with
  | nil => intro fuel acc; cases fuel <;> rfl
  | cons c rest ih =>
    intro fuel acc
    have hc : ¬ c = '[' := by rintro rfl; exact h (List.mem_cons_self _ _)
    have hr : '[' ∉ rest := fun hm => h (List.mem_cons_of_mem _ hm)
    cases fuel with
    | zero => rfl
    | succ fuel => simp only [protectLinksGo, if_neg hc, ih hr fuel acc]

theorem protectImagesGo_id {s : List Char} (h : '!' ∉ s) :
    ∀ fuel acc, protectImagesGo fuel s acc = (s, acc) := by
  induction s with
  | nil => intro fuel acc; cases fuel <;> rfl
  | cons c rest ih =>
    intro fuel acc
    have hc : ¬ c = '!' := by rintro rfl; exact h (List.mem_cons_self _ _)
    have hr : '!' ∉ rest := fun hm => h (List.mem_cons_of_mem _ hm)
    cases fuel with
    | zero => rfl
    | succ fuel => simp only [protectImagesGo, if_neg hc, ih hr fuel acc]

theorem processInlineElements_id {s : List Char}
    (h1 : btick ∉ s) (h2 : '!' ∉ s) (h3 : '[' ∉ s) (h4 : '*' ∉ s)
    (h5 : '_' ∉ s) (h6 : '~' ∉ s) (h7 : '<' ∉ s) :
    processInlineElements s = s := by
  by_cases hs : s = []
  · subst hs; rfl
  · unfold processInlineElements
    rw [if_neg hs]
    simp only [processInlineCode, processImages, processLinks, processBoldItalic,
      processStrikethrough, processInlineHTML,
      inlineCodeGo_id h1, imagesGo_id h2, linksGo_id h3,
      emphGo_id h4, emphGo_id h5, emphGo_id h6, inlineHTMLGo_id h7]

theorem escapeHTMLInText_id {s : List Char}
    (h1 : btick ∉ s) (h3 : '[' ∉ s) (h2 : '!' ∉ s) (h7 : '<' ∉ s) :
    escapeHTMLInText s = s := by
  unfold escapeHTMLInText protectAll
  simp only [protectCodeGo_id h1, protectLinksGo_id h3, protectImagesGo_id h2,
    escTagsGo_id h7]
  rfl

theorem trim_ne_nil_of_mem {s : List Char} {c : Char} (hc : c ∈ s)
    (hw : isWs c = false) : ¬ trim s = [] := by
  intro h
  unfold trim at h
  rw [List.reverse_eq_nil_iff, List.dropWhile_eq_nil_iff] at h
  have h2 : ∀ x ∈ s.dropWhile isWs, isWs x = true :=
    fun x hx => h x (List.mem_reverse.mpr hx)
  have hc2 : c ∈ List.takeWhile isWs s ++ List.dropWhile isWs s := by
    rw [List.takeWhile_append_dropWhile]; exact hc
  have h3 : isWs c = true := by
    rcases List.mem_append.mp hc2 with h4 | h4
    · exact List.mem_takeWhile_imp h4
    · exact h2 c h4
  rw [hw] at h3
  exact Bool.false_ne_true h3

theorem listTypeOf_fixed (t : List Char) (items : List ListItem) :
    List.foldl (fun acc it => if acc = none then some (tagOfItem it) else acc)
      (some t) items = some t := by
  induction items with
  | nil => rfl
  | cons it tl ih =>
    simp only [List.foldl_cons]
    rw [if_neg (by simp)]
    exact ih

theorem listTypeOf_cons (it : ListItem) (tl : List ListItem) :
    listTypeOf (it :: tl) = some (tagOfItem it) := by
  unfold listTypeOf
  simp only [List.foldl_cons, if_pos rfl]
  exact listTypeOf_fixed _ tl

/-! ### Claim theorems -/

/-- C1: the claim states that `parse` terminates on every finite input and
that every processor returns `nextIndex` strictly greater than the index
it was called with.  The code violates this: on the single line `"- "`
the list gate matches but no item regex does, so `processList` collects
zero items and returns `nextIndex = startIndex` (consuming zero lines,
with `listType` still `null`), and the dispatcher loop re-runs forever on
the same index — `processLinesGo` returns `none` (no termination) for
every fuel bound, hence `parse "- "` never produces a result. -/
theorem c1_progress_violated_parse_diverges :
    processList ["- ".data] = ("<null>\n</null>".data, 0) ∧
    processBlockElement ["- ".data] = some ("<null>\n</null>".data, 0) ∧
    (∀ fuel acc, processLinesGo fuel ["- ".data] acc = none) ∧
    parse "- " = none := by
  refine ⟨by decide, by decide, ?_, by decide⟩
  intro fuel
  induction fuel with
  | zero => intro acc; rfl
  | succ f ih =>
    intro acc
    have hb : processBlockElement ["- ".data] = some ("<null>\n</null>".data, 0) := by
      decide
    have ht : ¬ (trim "- ".data = [] ∧ acc = []) := by
      rintro ⟨h1, -⟩
      revert h1
      decide
    simp only [processLinesGo, if_neg ht, hb, List.drop_zero]
    exact ih (acc ++ ["<null>\n</null>".data])

/-- C2, counterexample: the claim states that the content of a recognized
code span is left unchanged by every later inline stage and never
reinterpreted as markup.  On the inline unit `` `**x**` `` the code span
is resolved first to `<code>**x**</code>`, but the later bold stage
rewrites its content to `<code><strong>x</strong></code>`: the code-span
characters `**x**` do not appear in the output and were reinterpreted as
emphasis markup. -/
theorem c2_counterexample_code_span_rewritten :
    processInlineElements "`**x**`".data = "<code><strong>x</strong></code>".data ∧
    ¬ ("**x**".data <:+: processInlineElements "`**x**`".data) := by
  exact ⟨by decide, by decide⟩

/-- C2, amended: in the inline pipeline code spans are resolved first and
their content is HTML-escaped at that stage, but the emitted code element
is not shielded from the later stages: emphasis, link, image and
strikethrough patterns occurring inside a code span are still rewritten
by the later stages (e.g. a link pattern inside a code span becomes an
`<a>` element). -/
theorem c2_amended_code_first_escaped_not_shielded :
    (∀ s, processInlineElements s =
      if s = [] then []
      else processInlineHTML (processStrikethrough (processBoldItalic
        (processLinks (processImages (processInlineCode s)))))) ∧
    processInlineCode "`<a&b>`".data = "<code>&lt;a&amp;b&gt;</code>".data ∧
    processInlineElements "`[a](b)`".data = "<code><a href=\"b\">a</a></code>".data := by
  exact ⟨fun s => rfl, by decide, by decide⟩

/-- C3, counterexample: the claim states that every bare `<`, `>`, `&`
and quote character in the plain text of a paragraph appears HTML-escaped
in the output.  On the paragraph `x & "y" < z` the escaping pass leaves
the text completely unchanged — the bare ampersand, the quotes and the
`<` (which has no following `>`) all reach the output unescaped; no
`&amp;`, `&quot;` or `&lt;` appears. -/
theorem c3_counterexample_bare_specials_unescaped :
    escapeHTMLInText "x & \"y\" < z".data = "x & \"y\" < z".data ∧
    processParagraph ["x & \"y\" < z".data] = ("<p>x & \"y\" < z</p>".data, 1) ∧
    ¬ ("&amp;".data <:+: (processParagraph ["x & \"y\" < z".data]).1) ∧
    ¬ ("&quot;".data <:+: (processParagraph ["x & \"y\" < z".data]).1) ∧
    ¬ ("&lt;".data <:+: (processParagraph ["x & \"y\" < z".data]).1) := by
  exact ⟨by decide, by decide, by decide, by decide, by decide⟩

/-- C3, amended: the paragraph escaping pass escapes `&`, `<`, `>` only
inside complete angle-bracket sequences (a `<`, one or more non-`>`
characters, then `>`) occurring outside protected spans; bare `&`,
quotes, and `<`/`>` characters not forming such a sequence are left
unescaped, and protected code/link/image spans are restored unchanged
(not double-escaped). -/
theorem c3_amended_only_tag_sequences_escaped :
    escapeHTMLInText "a <em>b</em> & `<x>` [t](u) \"q\"".data =
      "a &lt;em&gt;b&lt;/em&gt; & `<x>` [t](u) \"q\"".data ∧
    escapeHTMLInText "`&`".data = "`&`".data ∧
    escapeHTMLInText "a < b > c".data = "a &lt; b &gt; c".data := by
  exact ⟨by decide, by decide, by decide⟩

/-- C5, counterexample: the claim states that every line starting with
`>` — with or without a following space — is consumed into a blockquote.
The gates `/^\s*>\s/` require a whitespace character after the `>`, so
the line `>a` is not matched by the blockquote processor (nor any other
block processor) and is rendered as the paragraph `<p>>a</p>`. -/
theorem c5_counterexample_no_space_after_gt :
    processBlockElement [">a".data] = none ∧
    processLines [">a".data] = some "<p>>a</p>".data := by
  exact ⟨by decide, by decide⟩

/-- C5, amended: the blockquote processor matches every contiguous run of
lines consisting of optional whitespace, `>`, and a required whitespace
character; it strips the marker and at most one following whitespace
character from each line, joins the remainders with newlines, and emits
`<blockquote>content</blockquote>`; a line whose `>` is not followed by
whitespace is not matched. -/
theorem c5_amended_space_required :
    processBlockElement ["> a".data, ">  b".data, "x".data] =
      some ("<blockquote>a\n b</blockquote>".data, 2) ∧
    bqGate "> a".data = true ∧
    bqGate ">a".data = false := by
  exact ⟨by decide, by decide, by decide⟩

/-- C6, counterexample: the claim states the horizontal-rule processor
matches only 3+ repetitions of a *single* one of `-`, `*`, `_`, never a
mixture.  The regex `/^\s*[-*_]{3,}\s*$/` accepts any mixture: the line
`-*_` (one of each) is rendered as `<hr>`. -/
theorem c6_counterexample_mixed_rule_chars :
    processBlockElement ["-*_".data] = some ("<hr>".data, 1) := by
  decide

/-- C6, amended: the horizontal-rule processor matches exactly those
lines consisting of three or more characters drawn from `{-, *, _}` (in
any mixture), optionally surrounded — but not interspersed — by
whitespace, emitting `<hr>` and consuming exactly one line; fewer than
three rule characters do not match. -/
theorem c6_amended_any_mixture_of_three :
    processBlockElement ["***".data] = some ("<hr>".data, 1) ∧
    processBlockElement [" -_* ".data] = some ("<hr>".data, 1) ∧
    processBlockElement ["--".data] = none ∧
    hrMatch "- - -".data = false := by
  exact ⟨by decide, by decide, by decide, by decide⟩

/-- C7: for every contiguous list run, the rendered list tag is fixed by
the first item of the run (`ul` for unordered and task items, `ol` for
ordered items) and never changes afterwards: both the opening and the
closing tag of the emitted HTML come from `tagOfItem` of the first item,
whatever the marker families of the later lines in the run. -/
theorem c7_list_tag_fixed_by_first_item (l : Line) (rest : List Line)
    (it : ListItem) (h : itemOf l = some it) :
    processList (l :: rest) =
      ('<' :: tagOfItem it ++ ">\n".data ++
        ((it :: collectItems rest).map renderItem).flatten ++
        "</".data ++ tagOfItem it ++ ">".data,
       (it :: collectItems rest).length) := by
  have hcol : collectItems (l :: rest) = it :: collectItems rest := by
    simp only [collectItems, h]
  simp only [processList, hcol, listTypeOf_cons]

/-- C7 witness: a run starting with an unordered item followed by an
ordered-marker line still renders as `<ul>`. -/
theorem c7_witness :
    processList ["- a".data, "2. b".data] =
      ("<ul>\n<li>a</li>\n<li>b</li>\n</ul>".data, 2) := by
  have h := c7_list_tag_fixed_by_first_item "- a".data ["2. b".data]
    ⟨ItemKind.unordered, 0, "a".data, false⟩ (by decide)
  exact h.trans (by decide)

/-- C4, counterexample: the claim states that for every paragraph whose
plain text embeds a `<script>...</script>` sequence, the output contains
`&lt;script&gt;` and `&lt;/script&gt;` and no literal `<script>` tag.
For the paragraph below, the script sequence is embedded in plain text
(it survives the protection passes, first two conjuncts), yet the full
`parse` output — fallback sanitizer included — contains a literal
`<script>` and does not even contain `&lt;script&gt;`: a literal
placeholder token in the text misplaces the restoration of the code
span, a stray backtick inside the link then re-pairs the backticks, the
inline code stage consumes the link and the code span's opening
backtick, and the protected (hence never escaped) `<script>` inside the
code span leaks raw into the output, while the escaped plain-text copy
is double-escaped to `&amp;lt;script&amp;gt;` by the same code stage. -/
theorem c4_counterexample_script_leaks_to_output :
    ("<script>".data <:+:
      (protectAll "__PROTECTED_1__ <script>a</script> `<script>s` [`](u)".data).1) ∧
    ("</script>".data <:+:
      (protectAll "__PROTECTED_1__ <script>a</script> `<script>s` [`](u)".data).1) ∧
    (parse "__PROTECTED_1__ <script>a</script> `<script>s` [`](u)").isSome = true ∧
    ("<script>".data <:+:
      ((parse "__PROTECTED_1__ <script>a</script> `<script>s` [`](u)").getD "").data) ∧
    ¬ ("&lt;script&gt;".data <:+:
      ((parse "__PROTECTED_1__ <script>a</script> `<script>s` [`](u)").getD "").data) := by
  exact ⟨by decide, by decide, by decide, by decide, by decide⟩

/-- C4, amended: for a paragraph whose plain text embeds a
`<script>...</script>` sequence and which contains no backtick or
placeholder-token interference (such as the specification's own
examples), the output contains `&lt;script&gt;` and `&lt;/script&gt;`
and no literal `<script>` tag, and a link `[x](y)` in the same paragraph
is protected, restored and converted by the inline engine; the guarantee
is however not universal (see the counterexample). -/
theorem c4_amended_typical_paragraphs_escaped :
    parse "This has <script>alert(1)</script> text." =
      some "<p>This has &lt;script&gt;alert(1)&lt;/script&gt; text.</p>" ∧
    parse "See [x](y) and <script>alert(1)</script>." =
      some "<p>See <a href=\"y\">x</a> and &lt;script&gt;alert(1)&lt;/script&gt;.</p>" ∧
    ("<a href=\"y\">x</a>".data <:+:
      "<p>See <a href=\"y\">x</a> and &lt;script&gt;alert(1)&lt;/script&gt;.</p>".data) ∧
    ¬ ("<script>".data <:+:
      "<p>See <a href=\"y\">x</a> and &lt;script&gt;alert(1)&lt;/script&gt;.</p>".data) := by
  exact ⟨by decide, by decide, by decide, by decide⟩

/-- Helper: a line whose first character is not `#` never matches the
header pattern. -/
theorem headerMatch_cons_ne {c : Char} (t : List Char) (h : ¬ c = '#') :
    headerMatch (c :: t) = none := by
  have htw : (c :: t).takeWhile (fun c => c = '#') = [] := by
    rw [List.takeWhile_cons, if_neg (by simpa using h)]
  unfold headerMatch
  rw [htw]
  rfl

/-- C9: for every fenced code block opened by a triple-backtick line with
no subsequent closing fence, the block silently consumes all remaining
lines to the end of the document: the emitted HTML is `<pre><code>` (with
the language class when present) around the character-for-character
HTML-escape of the joined remaining lines — no inline processing — and
the returned index is one past the line count. -/
theorem c9_unterminated_fence_consumes_all (fl : Line) (rest : List Line)
    (hf : fenceOpen fl = true) (hnc : ∀ l ∈ rest, closeFence l = false) :
    processFencedCodeBlock (fl :: rest) =
      ("<pre><code".data ++
        (if (fl.drop 3).takeWhile isWordChar = [] then []
         else " class=\"language-".data ++ (fl.drop 3).takeWhile isWordChar ++ "\"".data) ++
        ">".data ++ escapeHTML (List.intercalate ['\n'] rest) ++ "</code></pre>".data,
       rest.length + 2) ∧
    (processFencedCodeBlock (fl :: rest)).2 = (fl :: rest).length + 1 ∧
    processBlockElement (fl :: rest) = some (processFencedCodeBlock (fl :: rest)) := by
  have htake : rest.takeWhile (fun x => ¬ closeFence x) = rest := by
    rw [List.takeWhile_eq_self_iff]
    intro x hx
    simp [hnc x hx]
  have hm : headerMatch fl = none := by
    cases fl with
    | nil => exact absurd hf (by decide)
    | cons c t =>
      have hc : btick = c := by
        unfold fenceOpen at hf
        rw [show "```".data = [btick, btick, btick] from rfl] at hf
        simp [List.isPrefixOf] at hf
        exact hf.1
      exact headerMatch_cons_ne t (by rw [← hc]; decide)
  refine ⟨?_, ?_, ?_⟩
  · simp only [processFencedCodeBlock, htake]
  · simp only [processFencedCodeBlock, htake, List.length_cons]
    try omega
  · simp only [processBlockElement, hm, hf, if_true]

/-- C9 witness: an unterminated `js`-tagged fence over two lines. -/
theorem c9_witness :
    processFencedCodeBlock ["```js".data, "<b>".data, "x".data] =
      ("<pre><code class=\"language-js\">&lt;b&gt;\nx</code></pre>".data, 4) ∧
    processBlockElement ["```js".data, "<b>".data, "x".data] =
      some (processFencedCodeBlock ["```js".data, "<b>".data, "x".data]) := by
  have h := c9_unterminated_fence_consumes_all "```js".data ["<b>".data, "x".data]
    (by decide) (by decide)
  exact ⟨h.1.trans (by decide), h.2.2⟩

/-- C10: when a line containing `|` passes the table lookahead gate but
the separator line contains no `|`, table collection stops after the
first line, `processTable` yields no table (`none`), the dispatcher's
`processBlockElement` returns `none` for that position (the table branch
returns the `null` directly, skipping the later matchers), and the
dispatcher loop therefore renders the `|` line through the Paragraph
processor. -/
theorem c10_separator_without_pipe_no_table (l next : Line) (rest : List Line)
    (hh : headerMatch l = none) (hf : fenceOpen l = false)
    (hr : isTableRow l = true) (hs : isTableSeparator next = true)
    (hp : next.contains '|' = false) :
    processTable (l :: next :: rest) = none ∧
    processBlockElement (l :: next :: rest) = none ∧
    (∀ fuel acc, processLinesGo (fuel + 1) (l :: next :: rest) acc =
      processLinesGo fuel
        ((l :: next :: rest).drop (processParagraph (l :: next :: rest)).2)
        (acc ++ [(processParagraph (l :: next :: rest)).1])) := by
  have hnr : isTableRow next = false := by
    unfold isTableRow
    rw [hp]
    rfl
  have htw : (l :: next :: rest).takeWhile isTableRow = [l] := by
    rw [List.takeWhile_cons, if_pos hr, List.takeWhile_cons, if_neg (by simp [hnr])]
  have hpt : processTable (l :: next :: rest) = none := by
    simp only [processTable, htw]
  have hpb : processBlockElement (l :: next :: rest) = none := by
    simp only [processBlockElement, hh, hf, hr, hs, hpt, Bool.false_eq_true,
      if_false, Bool.and_self, if_true]
  refine ⟨hpt, hpb, ?_⟩
  intro fuel acc
  have htne : ¬ (trim l = [] ∧ acc = []) := by
    rintro ⟨h1, -⟩
    unfold isTableRow at hr
    rw [h1] at hr
    simp at hr
  simp only [processLinesGo, if_neg htne, hpb]

/-- C10 witness: `a | b` followed by `---` (a separator without `|`)
produces no table and renders as a paragraph followed by a rule. -/
theorem c10_witness :
    processTable ["a | b".data, "---".data] = none ∧
    processBlockElement ["a | b".data, "---".data] = none ∧
    processLinesGo 2 ["a | b".data, "---".data] [] =
      processLinesGo 1 (["a | b".data, "---".data].drop
          (processParagraph ["a | b".data, "---".data]).2)
        ([] ++ [(processParagraph ["a | b".data, "---".data]).1]) := by
  have h := c10_separator_without_pipe_no_table "a | b".data "---".data []
    (by decide) (by decide) (by decide) (by decide) (by decide)
  exact ⟨h.1, h.2.1, h.2.2 1 []⟩

/-- A one-parameter family of header test lines: `n` hash characters
followed by a space and the text `H1`. -/
def hashLine (n : Nat) : Line := List.replicate n '#' ++ " H1".data

theorem hashLine_chars {n : Nat} {c : Char} (h : c ∈ hashLine n) :
    c = '#' ∨ c = ' ' ∨ c = 'H' ∨ c = '1' := by
  unfold hashLine at h
  rcases List.mem_append.mp h with h2 | h2
  · exact Or.inl (List.eq_of_mem_replicate h2)
  · right
    rw [show " H1".data = [' ', 'H', '1'] from rfl] at h2
    simpa using h2

theorem hashLine_takeWhile (n : Nat) :
    (hashLine n).takeWhile (fun c => c = '#') = List.replicate n '#' := by
  induction n with
  | zero => rfl
  | succ m ih =>
    unfold hashLine at ih ⊢
    rw [List.replicate_succ, List.cons_append, List.takeWhile_cons,
      if_pos (by decide), ih]

theorem hashLine_headerMatch {n : Nat} (h : 7 ≤ n) :
    headerMatch (hashLine n) = none := by
  unfold headerMatch
  rw [hashLine_takeWhile, List.length_replicate, if_pos (Or.inr (by omega))]

theorem hashLine_cons (m : Nat) :
    hashLine (7 + m) = '#' :: '#' :: (List.replicate (5 + m) '#' ++ " H1".data) := by
  unfold hashLine
  rw [show 7 + m = (5 + m) + 1 + 1 from by omega, List.replicate_succ,
    List.replicate_succ]
  rfl

theorem hashLine_blockElement_none {n : Nat} (h : 7 ≤ n) :
    processBlockElement [hashLine n] = none := by
  obtain ⟨m, rfl⟩ : ∃ m, n = 7 + m := Nat.exists_eq_add_of_le h
  have hhm : headerMatch (hashLine (7 + m)) = none := hashLine_headerMatch (by omega)
  have hfo : fenceOpen (hashLine (7 + m)) = false := by rw [hashLine_cons]; rfl
  have hct : isTableRow (hashLine (7 + m)) = false := by
    have hpipe : '|' ∉ hashLine (7 + m) := by
      intro hm2
      rcases hashLine_chars hm2 with h2 | h2 | h2 | h2 <;> exact absurd h2 (by decide)
    unfold isTableRow
    rw [(by simpa using hpipe : (hashLine (7 + m)).contains '|' = false)]
    rfl
  have hlg : listGate (hashLine (7 + m)) = false := by rw [hashLine_cons]; rfl
  have hbq : bqGate (hashLine (7 + m)) = false := by rw [hashLine_cons]; rfl
  have hhr : hrMatch (hashLine (7 + m)) = false := by rw [hashLine_cons]; rfl
  simp [processBlockElement, hhm, hfo, hct, hlg, hbq, hhr]

/-- C8: a line of 1 to 6 hash characters followed by whitespace and text
is rendered as a header of the corresponding level (`# H1` gives
`<h1>H1</h1>`), while a line with 7 or more leading hash characters does
not match the header pattern and is rendered as paragraph text. -/
theorem c8_header_levels (n : Nat) :
    (1 ≤ n → n ≤ 6 →
      processLines [hashLine n] =
        some ("<h".data ++ Nat.toDigits 10 n ++ ">".data ++ "H1".data ++
          "</h".data ++ Nat.toDigits 10 n ++ ">".data)) ∧
    (7 ≤ n →
      headerMatch (hashLine n) = none ∧
      processLines [hashLine n] = some ("<p>".data ++ hashLine n ++ "</p>".data)) := by
  constructor
  · intro h1 h6
    interval_cases n <;> decide
  · intro h7
    refine ⟨hashLine_headerMatch h7, ?_⟩
    have hpb := hashLine_blockElement_none h7
    have hnot : ∀ y : Char, (y = '#' ∨ y = ' ' ∨ y = 'H' ∨ y = '1' → False) →
        y ∉ hashLine n := fun y hy hm => hy (hashLine_chars hm)
    have hbt : btick ∉ hashLine n := hnot _ (by decide)
    have hex : '!' ∉ hashLine n := hnot _ (by decide)
    have hlb : '[' ∉ hashLine n := hnot _ (by decide)
    have hst : '*' ∉ hashLine n := hnot _ (by decide)
    have hus : '_' ∉ hashLine n := hnot _ (by decide)
    have htl : '~' ∉ hashLine n := hnot _ (by decide)
    have hlt : '<' ∉ hashLine n := hnot _ (by decide)
    have hmemH : 'H' ∈ hashLine n := by
      unfold hashLine
      exact List.mem_append.mpr (Or.inr (by decide))
    have htr : ¬ trim (hashLine n) = [] := trim_ne_nil_of_mem hmemH (by decide)
    have hcp : collectParaLines [hashLine n] = [hashLine n] := by
      rw [collectParaLines, if_neg, collectParaLines]
      rintro (h2 | h2)
      · exact htr h2
      · rw [hpb] at h2
        exact absurd h2 (by decide)
    have hpp : processParagraph [hashLine n] =
        ("<p>".data ++ hashLine n ++ "</p>".data, 1) := by
      unfold processParagraph
      rw [hcp, if_neg (by simp), intercalate_singleton,
        escapeHTMLInText_id hbt hlb hex hlt,
        processInlineElements_id hbt hex hlb hst hus htl hlt]
      rfl
    have htc : ¬ (trim (hashLine n) = [] ∧ ([] : List (List Char)) = []) := by
      rintro ⟨h2, -⟩
      exact htr h2
    have hgo : processLinesGo 2 [hashLine n] [] =
        some ["<p>".data ++ hashLine n ++ "</p>".data] := by
      simp only [processLinesGo, hpb, hpp, List.drop_succ_cons,
        List.drop_zero, List.nil_append, and_true]
      rw [if_neg htr]
    unfold processLines
    rw [show [hashLine n].length + 1 = 2 from by simp, hgo]
    simp [intercalate_singleton]

/-- C8 witness: level 1 renders as an `<h1>` header; seven hashes do not
match the header pattern and render as a paragraph. -/
theorem c8_witness :
    processLines [hashLine 1] =
      some ("<h".data ++ Nat.toDigits 10 1 ++ ">".data ++ "H1".data ++
        "</h".data ++ Nat.toDigits 10 1 ++ ">".data) ∧
    headerMatch (hashLine 7) = none ∧
    processLines [hashLine 7] = some ("<p>".data ++ hashLine 7 ++ "</p>".data) := by
  refine ⟨(c8_header_levels 1).1 (by decide) (by decide), ?_, ?_⟩
  · exact ((c8_header_levels 7).2 (by decide)).1
  · exact ((c8_header_levels 7).2 (by decide)).2

end MarkMirror
